import Mathlib

/-!
Verification of the decision engine of `sonden.go` (bradfitz/sonden):
the energy-estimator sample ring, the playback classifier, and the
amplifier actuator.  Go machine integers (`int`, `int16`) are embedded
as `ℤ` (no overflow occurs in the source's ranges: the ring sum is
bounded by `8192 * 2^15`), `float64` statistics as exact rationals `ℚ`.
-/

namespace Sonden

/-- Constant `sampleHz = 8 << 10` from sonden.go. -/
def sampleHz : ℕ := 8192

/-- Constant `ringSize = sampleHz` from sonden.go. -/
def ringSize : ℕ := sampleHz

/-- Embedding of `type sampleRing struct { i int; samples [ringSize]int16; sum int }`.
The fixed-size array is a list (length `ringSize` for well-formed states);
sample values are integers. -/
structure sampleRing where
  i : ℕ
  samples : List ℤ
  sum : ℤ

/-- Embedding of `func (r *sampleRing) Add(sample int16)`:
subtract the slot being evicted from the sum, add the new sample,
store it, advance the cursor and wrap at the array length. -/
def sampleRing.Add (r : sampleRing) (sample : ℤ) : sampleRing :=
  let sum1 := r.sum - r.samples.getD r.i 0 + sample
  let samples1 := r.samples.set r.i sample
  let i1 := r.i + 1
  { i := if i1 = samples1.length then 0 else i1, samples := samples1, sum := sum1 }

/-- The Go zero value of `sampleRing` as allocated in `main`:
cursor 0, all slots 0, sum 0. -/
def initRing : sampleRing := ⟨0, List.replicate ringSize 0, 0⟩

/-- Feeding a whole sequence of samples, oldest first. -/
def addAll (r : sampleRing) (xs : List ℤ) : sampleRing :=
  xs.foldl sampleRing.Add r

/-- The ring's slots read in age order, oldest (the slot under the cursor) first. -/
def sampleRing.queue (r : sampleRing) : List ℤ :=
  r.samples.drop r.i ++ r.samples.take r.i

/-- Well-formed ring state: the cursor is in range and the running sum
agrees with the slots. -/
def sampleRing.WF (r : sampleRing) : Prop :=
  r.i < r.samples.length ∧ r.sum = r.samples.sum

theorem sum_set_int (l : List ℤ) (n : ℕ) (a : ℤ) (h : n < l.length) :
    (l.set n a).sum = l.sum - l[n] + a := by
  have h2 : l.sum = (l.take n).sum + (l[n] + (l.drop (n + 1)).sum) := by
    calc l.sum = (l.take n ++ l.drop n).sum := by rw [List.take_append_drop]
    _ = (l.take n).sum + (l.drop n).sum := List.sum_append
    _ = (l.take n).sum + (l[n] :: l.drop (n + 1)).sum := by
        rw [List.getElem_cons_drop l n h]
    _ = (l.take n).sum + (l[n] + (l.drop (n + 1)).sum) := by rw [List.sum_cons]
  rw [List.set_eq_take_cons_drop a h]
  simp only [List.sum_append, List.sum_cons]
  omega

theorem sampleRing.length_Add (r : sampleRing) (s : ℤ) :
    (r.Add s).samples.length = r.samples.length := by
  simp [sampleRing.Add]

theorem sampleRing.WF_Add (r : sampleRing) (s : ℤ) (h : r.WF) : (r.Add s).WF := by
  obtain ⟨hi, hsum⟩ := h
  constructor
  · simp only [sampleRing.Add, List.length_set]
    split
    · omega
    · omega
  · simp only [sampleRing.Add]
    rw [sum_set_int r.samples r.i s hi, List.getD_eq_getElem r.samples 0 hi, hsum]

theorem sampleRing.sum_Add (r : sampleRing) (s : ℤ) :
    (r.Add s).sum = r.sum - r.samples.getD r.i 0 + s := rfl

theorem sampleRing.queue_Add (r : sampleRing) (s : ℤ) (hi : r.i < r.samples.length) :
    (r.Add s).queue = r.queue.tail ++ [s] := by
  have hset : r.samples.set r.i s =
      r.samples.take r.i ++ s :: r.samples.drop (r.i + 1) :=
    List.set_eq_take_cons_drop s hi
  have hdropi : r.samples.drop r.i = r.samples[r.i] :: r.samples.drop (r.i + 1) :=
    (List.getElem_cons_drop r.samples r.i hi).symm
  have htklen : (r.samples.take r.i).length = r.i := by
    simp [List.length_take]
    omega
  by_cases hwrap : r.i + 1 = r.samples.length
  · have hdrop1 : r.samples.drop (r.i + 1) = [] :=
      List.drop_eq_nil_of_le (by omega)
    have hnewi : (r.Add s).i = 0 := by
      simp [sampleRing.Add, List.length_set, hwrap]
    unfold sampleRing.queue
    rw [hnewi]
    simp only [List.drop_zero, List.take_zero, List.append_nil]
    show r.samples.set r.i s = _
    rw [hset, hdrop1, hdropi, hdrop1]
    simp
  · have hi1 : r.i + 1 < r.samples.length := by omega
    have hnewi : (r.Add s).i = r.i + 1 := by
      simp [sampleRing.Add, List.length_set, hwrap]
    unfold sampleRing.queue
    rw [hnewi]
    show (r.samples.set r.i s).drop (r.i + 1) ++ (r.samples.set r.i s).take (r.i + 1) = _
    rw [hset, List.drop_append_eq_append_drop, List.take_append_eq_append_take]
    rw [List.drop_eq_nil_of_le (by omega : (r.samples.take r.i).length ≤ r.i + 1)]
    rw [List.take_of_length_le (by omega : (r.samples.take r.i).length ≤ r.i + 1)]
    rw [htklen]
    have h1 : r.i + 1 - r.i = 1 := by omega
    rw [h1]
    rw [hdropi]
    simp only [List.cons_append, List.tail_cons, List.append_assoc, List.drop_zero,
      List.drop_succ_cons, List.take_succ_cons, List.take_zero, List.nil_append]

theorem sampleRing.queue_sum (r : sampleRing) : r.queue.sum = r.samples.sum := by
  unfold sampleRing.queue
  conv_rhs => rw [← List.take_append_drop r.i r.samples]
  rw [List.sum_append, List.sum_append]
  ring

theorem addAll_WF (xs : List ℤ) : ∀ r : sampleRing, r.WF → (addAll r xs).WF := by
  induction xs with
  | nil => intro r h; exact h
  | cons x xs ih =>
      intro r h
      exact ih (r.Add x) (r.WF_Add x h)

theorem addAll_queue (xs : List ℤ) : ∀ r : sampleRing, r.WF →
    (addAll r xs).queue = (r.queue ++ xs).drop xs.length := by
  induction xs with
  | nil => intro r _; simp [addAll]
  | cons x xs ih =>
      intro r h
      have hstep : addAll r (x :: xs) = addAll (r.Add x) xs := rfl
      have hq : (r.Add x).queue = r.queue.tail ++ [x] := r.queue_Add x h.1
      have hqlen : r.queue.length = r.samples.length := by
        unfold sampleRing.queue
        rw [List.length_append, List.length_drop, List.length_take]
        have := h.1
        omega
      have hne : r.queue ≠ [] := by
        have hpos : 0 < r.queue.length := by
          rw [hqlen]
          have := h.1
          omega
        exact List.length_pos.mp hpos
      obtain ⟨a, t, hat⟩ := List.exists_cons_of_ne_nil hne
      rw [hstep, ih (r.Add x) (r.WF_Add x h), hq, hat]
      simp [List.length_cons]

/-- Claim C1: after any sequence of Adds starting from the zero-initialized ring,
the running sum equals the sum of the slots (the last `min(N, W)` samples added,
never-written slots counting as zero, i.e. the last `W` entries of the
zero-padded input); each Add subtracts the evicted slot before adding the new
sample, and after `N ≥ W` additions the sum is the exact sum of the last `W`
samples added. -/
theorem C1_running_sum (xs : List ℤ) (r : sampleRing) (s : ℤ) :
    ((r.Add s).sum = r.sum - r.samples.getD r.i 0 + s)
    ∧ (addAll initRing xs).sum = (addAll initRing xs).samples.sum
    ∧ (addAll initRing xs).sum = ((List.replicate ringSize (0 : ℤ) ++ xs).drop xs.length).sum
    ∧ (ringSize ≤ xs.length →
        (addAll initRing xs).sum = (xs.drop (xs.length - ringSize)).sum) := by
  have hwf0 : initRing.WF := by
    constructor
    · show 0 < (List.replicate ringSize (0 : ℤ)).length
      rw [List.length_replicate]
      norm_num [ringSize, sampleHz]
    · show (0 : ℤ) = (List.replicate ringSize (0 : ℤ)).sum
      rw [List.sum_replicate, smul_zero]
  have hwf : (addAll initRing xs).WF := addAll_WF xs initRing hwf0
  have hq0 : initRing.queue = List.replicate ringSize (0 : ℤ) := by
    show (List.replicate ringSize (0 : ℤ)).drop 0 ++ (List.replicate ringSize (0 : ℤ)).take 0 =
      List.replicate ringSize (0 : ℤ)
    rw [List.drop_zero, List.take_zero, List.append_nil]
  have hq : (addAll initRing xs).queue = (List.replicate ringSize (0 : ℤ) ++ xs).drop xs.length := by
    rw [← hq0]
    exact addAll_queue xs initRing hwf0
  have hmain : (addAll initRing xs).sum = ((List.replicate ringSize (0 : ℤ) ++ xs).drop xs.length).sum := by
    rw [hwf.2, ← (addAll initRing xs).queue_sum, hq]
  refine ⟨rfl, hwf.2, hmain, ?_⟩
  intro hlen
  have h1 : (List.replicate ringSize (0 : ℤ)).length = ringSize := List.length_replicate _ _
  have h2 : (List.replicate ringSize (0 : ℤ)).drop xs.length = [] :=
    List.drop_eq_nil_of_le (by rw [h1]; exact hlen)
  rw [hmain, List.drop_append_eq_append_drop, h1, h2, List.nil_append]

/-- Witness for C1 at a concrete input of length `W`. -/
theorem C1_running_sum_witness :
    (ringSize ≤ (List.replicate ringSize (1 : ℤ)).length)
    ∧ (addAll initRing (List.replicate ringSize (1 : ℤ))).sum =
        ((List.replicate ringSize (1 : ℤ)).drop
          ((List.replicate ringSize (1 : ℤ)).length - ringSize)).sum :=
  ⟨by simp, (C1_running_sum (List.replicate ringSize (1 : ℤ)) initRing 0).2.2.2 (by simp)⟩

/-- Embedding of `func (r *sampleRing) Variance() float64` over exact rationals:
`mean = sum / len(samples)`, then the mean of `|mean - sample|²` over all slots. -/
def sampleRing.Variance (r : sampleRing) : ℚ :=
  (r.samples.map (fun sample : ℤ =>
    |(r.sum : ℚ) / (r.samples.length : ℚ) - (sample : ℚ)| ^ 2)).sum / (r.samples.length : ℚ)

/-- Textbook population variance of the stored slots, written from the claim's
words: `(1/W) · Σ (sampleᵢ − mean)²` with `mean` the arithmetic mean of the W
slots.  Used only as the comparison target for claim C2. -/
def popVariance (r : sampleRing) : ℚ :=
  (r.samples.map (fun sample : ℤ =>
    ((sample : ℚ) - (r.samples.sum : ℚ) / (r.samples.length : ℚ)) ^ 2)).sum /
    (r.samples.length : ℚ)

theorem variance_eq_popVariance (r : sampleRing) (h : r.sum = r.samples.sum) :
    r.Variance = popVariance r := by
  unfold sampleRing.Variance popVariance
  rw [h]
  congr 1
  apply congrArg List.sum
  apply List.map_congr_left
  intro s _
  rw [sq_abs]
  ring

/-- Claim C2 (amended): `Variance()` returns `(1/W) · Σ |mean − sampleᵢ|²` with
`mean = runningSum / W`; but this quantity is NOT distinct from the textbook
population variance of the same W slots — since `|x|² = x²`, the two coincide
whenever the running sum agrees with the slots (the C1 invariant). -/
theorem C2_variance_formula (r : sampleRing) (h : r.sum = r.samples.sum) :
    r.Variance =
      (r.samples.map (fun sample : ℤ =>
        |(r.sum : ℚ) / (r.samples.length : ℚ) - (sample : ℚ)| ^ 2)).sum /
        (r.samples.length : ℚ)
    ∧ r.Variance = popVariance r :=
  ⟨rfl, variance_eq_popVariance r h⟩

/-- Counterexample to C2's distinctness: at the zero-initialized ring the code's
Variance value equals the textbook population variance. -/
theorem C2_counterexample : initRing.Variance = popVariance initRing :=
  variance_eq_popVariance initRing (by
    show (0 : ℤ) = (List.replicate ringSize (0 : ℤ)).sum
    rw [List.sum_replicate, smul_zero])

/-- Witness for C2 at the zero-initialized ring. -/
theorem C2_variance_formula_witness :
    (initRing.sum = initRing.samples.sum)
    ∧ (initRing.Variance =
        (initRing.samples.map (fun sample : ℤ =>
          |(initRing.sum : ℚ) / (initRing.samples.length : ℚ) - (sample : ℚ)| ^ 2)).sum /
          (initRing.samples.length : ℚ)
      ∧ initRing.Variance = popVariance initRing) := by
  have h : initRing.sum = initRing.samples.sum := by
    show (0 : ℤ) = (List.replicate ringSize (0 : ℤ)).sum
    rw [List.sum_replicate, smul_zero]
  exact ⟨h, C2_variance_formula initRing h⟩

/-- Embedding of the source's `min(a, b int) int`, defined via `compare` with
the predicate `d <= 0` on `d = a - b`. -/
def gomin (a b : ℤ) : ℤ := if a - b ≤ 0 then a else b

/-- Embedding of the source's `max(a, b int) int`, defined via `compare` with
the predicate `d >= 0` on `d = a - b`. -/
def gomax (a b : ℤ) : ℤ := if a - b ≥ 0 then a else b

theorem gomin_eq (a b : ℤ) : gomin a b = min a b := by
  unfold gomin
  split <;> omega

theorem gomax_eq (a b : ℤ) : gomax a b = max a b := by
  unfold gomax
  split <;> omega

/-- Embedding of `type varianceWindow struct { size, i, lastConseqPlaying,
totalNotPlaying int }`. -/
structure varianceWindow where
  size : ℤ
  i : ℤ
  lastConseqPlaying : ℤ
  totalNotPlaying : ℤ

/-- Embedding of `func (vw *varianceWindow) Add(variance float64)`:
advance and wrap the cursor, then update the two hysteresis counters
according to `variance > *threshold`. -/
def varianceWindow.Add (threshold : ℚ) (vw : varianceWindow) (variance : ℚ) : varianceWindow :=
  let i1 := vw.i + 1
  let i2 := if i1 = vw.size then 0 else i1
  if variance > threshold then
    { size := vw.size, i := i2,
      lastConseqPlaying := gomin vw.size (vw.lastConseqPlaying + 1),
      totalNotPlaying := gomax 0 (vw.totalNotPlaying - 1) }
  else
    { size := vw.size, i := i2,
      lastConseqPlaying := 0,
      totalNotPlaying := gomin vw.size (vw.totalNotPlaying + 1) }

/-- Embedding of `func (vw *varianceWindow) GoodToTurnOn() bool`:
`lastConseqPlaying >= int(playing.Seconds())`. -/
def varianceWindow.GoodToTurnOn (playingSec : ℤ) (vw : varianceWindow) : Bool :=
  decide (vw.lastConseqPlaying ≥ playingSec)

/-- Embedding of `func (vw *varianceWindow) GoodToTurnOff() bool`:
`totalNotPlaying >= int(idle.Seconds())`. -/
def varianceWindow.GoodToTurnOff (idleSec : ℤ) (vw : varianceWindow) : Bool :=
  decide (vw.totalNotPlaying ≥ idleSec)

/-- The `varianceWindow` allocated in `main`: Go zero value with
`vw.size = int(idle.Seconds() + playing.Seconds())`. -/
def initVW (size : ℤ) : varianceWindow := ⟨size, 0, 0, 0⟩

/-- Feeding a sequence of variance samples to the classifier, oldest first. -/
def feed (threshold : ℚ) (vw : varianceWindow) (vs : List ℚ) : varianceWindow :=
  vs.foldl (varianceWindow.Add threshold) vw

theorem Add_loud (threshold : ℚ) (vw : varianceWindow) (v : ℚ) (h : threshold < v) :
    (vw.Add threshold v).lastConseqPlaying = min vw.size (vw.lastConseqPlaying + 1)
    ∧ (vw.Add threshold v).totalNotPlaying = max 0 (vw.totalNotPlaying - 1)
    ∧ (vw.Add threshold v).size = vw.size := by
  unfold varianceWindow.Add
  rw [if_pos h]
  exact ⟨gomin_eq _ _, gomax_eq _ _, rfl⟩

theorem Add_quiet (threshold : ℚ) (vw : varianceWindow) (v : ℚ) (h : ¬ threshold < v) :
    (vw.Add threshold v).lastConseqPlaying = 0
    ∧ (vw.Add threshold v).totalNotPlaying = min vw.size (vw.totalNotPlaying + 1)
    ∧ (vw.Add threshold v).size = vw.size := by
  unfold varianceWindow.Add
  rw [if_neg h]
  exact ⟨rfl, gomin_eq _ _, rfl⟩

theorem feed_loud_lastConseq (threshold : ℚ) (vs : List ℚ) :
    ∀ vw : varianceWindow, (∀ v ∈ vs, threshold < v) →
    0 ≤ vw.lastConseqPlaying → vw.lastConseqPlaying ≤ vw.size →
    (feed threshold vw vs).lastConseqPlaying = min vw.size (vw.lastConseqPlaying + vs.length)
    ∧ (feed threshold vw vs).size = vw.size := by
  induction vs with
  | nil =>
      intro vw _ h0 hle
      constructor
      · show vw.lastConseqPlaying = _
        simp only [List.length_nil, Nat.cast_zero, add_zero]
        omega
      · rfl
  | cons v vs ih =>
      intro vw hloud h0 hle
      have hv : threshold < v := hloud v (List.mem_cons_self v vs)
      have hstep := Add_loud threshold vw v hv
      have hsize0 : 0 ≤ vw.size := le_trans h0 hle
      have ihres := ih (vw.Add threshold v)
        (fun w hw => hloud w (List.mem_cons_of_mem v hw))
        (by rw [hstep.1]; omega) (by rw [hstep.1, hstep.2.2]; omega)
      have hfeed : feed threshold vw (v :: vs) = feed threshold (vw.Add threshold v) vs := rfl
      rw [hfeed, ihres.1, ihres.2, hstep.1, hstep.2.2]
      constructor
      · simp only [List.length_cons, Nat.cast_add, Nat.cast_one]
        omega
      · rfl

/-- Claim C3: from the initial classifier state, after `k` consecutive loud
verdicts `GoodToTurnOn()` is true exactly when `k ≥ playingThresholdSeconds`
(true at the Nth loud verdict and at no earlier update), for the window size
`H = idleSeconds + playingSeconds` set in `main` and nonnegative durations. -/
theorem C3_goodToTurnOn (threshold : ℚ) (idleSec playingSec : ℤ)
    (hi : 0 ≤ idleSec) (hp : 0 ≤ playingSec)
    (vs : List ℚ) (hloud : ∀ v ∈ vs, threshold < v) :
    (feed threshold (initVW (idleSec + playingSec)) vs).GoodToTurnOn playingSec = true
      ↔ playingSec ≤ (vs.length : ℤ) := by
  have h := feed_loud_lastConseq threshold vs (initVW (idleSec + playingSec)) hloud
    (le_refl 0) (by show (0 : ℤ) ≤ idleSec + playingSec; omega)
  unfold varianceWindow.GoodToTurnOn
  rw [h.1]
  show decide (playingSec ≤ min (idleSec + playingSec) (0 + (vs.length : ℤ))) = true ↔ _
  rw [decide_eq_true_iff]
  omega

/-- Witness for C3 with the source's default configuration (idle 300 s,
playing 7 s, threshold 1000) and seven loud verdicts. -/
theorem C3_goodToTurnOn_witness :
    ((0 : ℤ) ≤ 300) ∧ ((0 : ℤ) ≤ 7)
    ∧ (∀ v ∈ List.replicate 7 (2000 : ℚ), (1000 : ℚ) < v)
    ∧ ((feed 1000 (initVW (300 + 7)) (List.replicate 7 (2000 : ℚ))).GoodToTurnOn 7 = true
        ↔ (7 : ℤ) ≤ ((List.replicate 7 (2000 : ℚ)).length : ℤ)) := by
  have hloud : ∀ v ∈ List.replicate 7 (2000 : ℚ), (1000 : ℚ) < v := by
    intro v hv
    rw [List.eq_of_mem_replicate hv]
    norm_num
  exact ⟨by norm_num, by norm_num, hloud,
    C3_goodToTurnOn 1000 300 7 (by norm_num) (by norm_num) _ hloud⟩

/-- Counterexample to C4: with threshold 0, idle 2 s, playing 1 s (H = 3),
feed two quiet then one loud verdict.  At the loud verdict `GoodToTurnOn()` has
just become true (it was false one update earlier) and `GoodToTurnOff()` is
still false, yet a single further quiet verdict immediately makes
`GoodToTurnOff()` true: `totalNotPlaying` was already `idleSeconds - 1`. -/
theorem C4_counterexample :
    ((feed 0 (initVW (2 + 1)) [0, 0]).GoodToTurnOn 1 = false)
    ∧ ((feed 0 (initVW (2 + 1)) [0, 0, 1]).GoodToTurnOn 1 = true)
    ∧ ((feed 0 (initVW (2 + 1)) [0, 0, 1]).GoodToTurnOff 2 = false)
    ∧ ((feed 0 (initVW (2 + 1)) [0, 0, 1, 0]).GoodToTurnOff 2 = true) := by
  decide

/-- Claim C4 (amended): a single quiet verdict cannot make `GoodToTurnOff()`
true unless `totalNotPlaying` already stood at `idleSeconds - 1`: if
`totalNotPlaying + 1 < idleSeconds` then one quiet verdict leaves
`GoodToTurnOff()` false.  The counter moves by single steps only — it
increments by one (capped at the window size) per quiet verdict and decrements
by one (floored at 0) per loud verdict — so it reaches the idle threshold only
by net accumulation, never by a reset. -/
theorem C4_decay (threshold : ℚ) (idleSec : ℤ) (vw : varianceWindow) (v v' : ℚ)
    (hq : ¬ threshold < v) (hl : threshold < v')
    (h : vw.totalNotPlaying + 1 < idleSec) :
    ((vw.Add threshold v).GoodToTurnOff idleSec = false)
    ∧ (vw.Add threshold v).totalNotPlaying = min vw.size (vw.totalNotPlaying + 1)
    ∧ (vw.Add threshold v').totalNotPlaying = max 0 (vw.totalNotPlaying - 1) := by
  have hstepq := Add_quiet threshold vw v hq
  have hstepl := Add_loud threshold vw v' hl
  refine ⟨?_, hstepq.2.1, hstepl.2.1⟩
  unfold varianceWindow.GoodToTurnOff
  rw [hstepq.2.1, decide_eq_false_iff_not]
  omega

/-- Witness for C4 with the source's default configuration, one quiet verdict
(variance 0), one loud verdict (variance 5000), from the initial state. -/
theorem C4_decay_witness :
    (¬ (1000 : ℚ) < 0) ∧ ((1000 : ℚ) < 5000) ∧ ((initVW (300 + 7)).totalNotPlaying + 1 < 300)
    ∧ (((initVW (300 + 7)).Add 1000 0).GoodToTurnOff 300 = false
      ∧ ((initVW (300 + 7)).Add 1000 0).totalNotPlaying =
          min (initVW (300 + 7)).size ((initVW (300 + 7)).totalNotPlaying + 1)
      ∧ ((initVW (300 + 7)).Add 1000 5000).totalNotPlaying =
          max 0 ((initVW (300 + 7)).totalNotPlaying - 1)) :=
  ⟨by norm_num, by norm_num, by decide,
    C4_decay 1000 300 (initVW (300 + 7)) 0 5000 (by norm_num) (by norm_num) (by decide)⟩

/-- The bounds invariant of claim C5 on the two hysteresis counters. -/
def vwInv (vw : varianceWindow) : Prop :=
  0 ≤ vw.lastConseqPlaying ∧ vw.lastConseqPlaying ≤ vw.size
  ∧ 0 ≤ vw.totalNotPlaying ∧ vw.totalNotPlaying ≤ vw.size

instance (vw : varianceWindow) : Decidable (vwInv vw) := by
  unfold vwInv
  infer_instance

theorem Add_size (threshold : ℚ) (vw : varianceWindow) (v : ℚ) :
    (vw.Add threshold v).size = vw.size := by
  unfold varianceWindow.Add
  split <;> rfl

theorem Add_inv (threshold : ℚ) (vw : varianceWindow) (v : ℚ)
    (hs : 0 ≤ vw.size) (h : vwInv vw) : vwInv (vw.Add threshold v) := by
  unfold vwInv at h ⊢
  rw [Add_size]
  by_cases hv : threshold < v
  · have hstep := Add_loud threshold vw v hv
    rw [hstep.1, hstep.2.1]
    omega
  · have hstep := Add_quiet threshold vw v hv
    rw [hstep.1, hstep.2.1]
    omega

theorem feed_inv (threshold : ℚ) (vs : List ℚ) :
    ∀ vw : varianceWindow, 0 ≤ vw.size → vwInv vw → vwInv (feed threshold vw vs) := by
  induction vs with
  | nil => intro vw _ h; exact h
  | cons v vs ih =>
      intro vw hs h
      have hsz : 0 ≤ (vw.Add threshold v).size := by rw [Add_size]; exact hs
      exact ih (vw.Add threshold v) hsz (Add_inv threshold vw v hs h)

/-- Claim C5: with `H = idleSeconds + playingSeconds` (nonnegative durations),
both counters stay in `[0, H]`: a single `Add` preserves the invariant
(saturating increments at `H`, flooring decrements at 0), and any update
sequence from the initial classifier state stays within bounds. -/
theorem C5_counters_bounded (threshold : ℚ) (idleSec playingSec : ℤ)
    (hi : 0 ≤ idleSec) (hp : 0 ≤ playingSec)
    (vw : varianceWindow) (v : ℚ) (hsz : vw.size = idleSec + playingSec) (hinv : vwInv vw)
    (vs : List ℚ) :
    vwInv (vw.Add threshold v)
    ∧ vwInv (feed threshold (initVW (idleSec + playingSec)) vs) := by
  constructor
  · exact Add_inv threshold vw v (by omega) hinv
  · refine feed_inv threshold vs (initVW (idleSec + playingSec)) ?_ ?_
    · show (0 : ℤ) ≤ idleSec + playingSec
      omega
    · unfold vwInv
      show (0 : ℤ) ≤ 0 ∧ (0 : ℤ) ≤ idleSec + playingSec ∧ (0 : ℤ) ≤ 0 ∧ (0 : ℤ) ≤ idleSec + playingSec
      omega

/-- Witness for C5 with the source's default configuration. -/
theorem C5_counters_bounded_witness :
    ((0 : ℤ) ≤ 300) ∧ ((0 : ℤ) ≤ 7) ∧ ((initVW (300 + 7)).size = 300 + 7)
    ∧ vwInv (initVW (300 + 7))
    ∧ (vwInv ((initVW (300 + 7)).Add 1000 5000)
      ∧ vwInv (feed 1000 (initVW (300 + 7)) [5000, 0, 5000])) :=
  ⟨by norm_num, by norm_num, by decide, by decide,
    C5_counters_bounded 1000 300 7 (by norm_num) (by norm_num) (initVW (300 + 7)) 5000
      (by decide) (by decide) [5000, 0, 5000]⟩

/-- Behavior of the amplifier transport during one actuation attempt: whether
the initial `Ping` succeeds and whether `SendCommand` succeeds per command
token. -/
structure ampEnv where
  pingOk : Bool
  sendOk : String → Bool

/-- The command sequence chosen in `turnOnOrOff`: `cmds = ["PWSTANDBY"]`,
replaced by `["PWON"]` when `state` is true. -/
def ampCmds (state : Bool) : List String :=
  if state then ["PWON"] else ["PWSTANDBY"]

/-- Result of one `turnOnOrOff` call: the value of the global
`currentAmpState` afterwards, whether a connect/`Ping` was attempted, and the
`SendCommand` invocations attempted, in order (including a failing one). -/
structure ampResult where
  state : Bool
  pinged : Bool
  sent : List String

/-- The command loop of `turnOnOrOff`: each command is sent in order unless in
dry-run mode (where the send is replaced by a log line); the loop stops at the
first failing send.  Returns whether the whole sequence succeeded, together
with the attempted `SendCommand` calls. -/
def sendLoop (dryRun : Bool) (env : ampEnv) : List String → Bool × List String
  | [] => (true, [])
  | cmd :: rest =>
    if dryRun then sendLoop dryRun env rest
    else if env.sendOk cmd then
      let r := sendLoop dryRun env rest
      (r.1, cmd :: r.2)
    else (false, [cmd])

/-- Embedding of `func turnOnOrOff(state bool)` acting on the global
`currentAmpState` (`cur`): return at once if the cached state already equals
the desired one; otherwise set it to `state`, ping the amplifier, and on a
ping failure or any send failure set it back to `!state` (the previous
value). -/
def turnOnOrOff (dryRun : Bool) (env : ampEnv) (cur state : Bool) : ampResult :=
  if cur = state then ⟨cur, false, []⟩
  else if !env.pingOk then ⟨!state, true, []⟩
  else
    let r := sendLoop dryRun env (ampCmds state)
    ⟨if r.1 then state else !state, true, r.2⟩

/-- The Go zero value of the global `currentAmpState`. -/
def initAmpState : Bool := false

theorem bool_not_of_ne {a b : Bool} (h : a ≠ b) : (!b) = a := by
  cases a <;> cases b <;> simp_all

theorem sendLoop_dry (env : ampEnv) (cmds : List String) :
    sendLoop true env cmds = (true, []) := by
  induction cmds with
  | nil => rfl
  | cons c rest ih =>
      simp only [sendLoop, if_true]
      exact ih

theorem sendLoop_all_ok (env : ampEnv) (cmds : List String)
    (h : ∀ c ∈ cmds, env.sendOk c = true) :
    sendLoop false env cmds = (true, cmds) := by
  induction cmds with
  | nil => rfl
  | cons c rest ih =>
      have hc : env.sendOk c = true := h c (List.mem_cons_self c rest)
      have hrest := ih (fun x hx => h x (List.mem_cons_of_mem c hx))
      simp only [sendLoop, Bool.false_eq_true, if_false, hc, if_true, hrest]

theorem sendLoop_ok_iff (env : ampEnv) (cmds : List String) :
    (sendLoop false env cmds).1 = true ↔ ∀ c ∈ cmds, env.sendOk c = true := by
  induction cmds with
  | nil => simp [sendLoop]
  | cons c rest ih =>
      simp only [sendLoop, Bool.false_eq_true, if_false]
      by_cases hc : env.sendOk c = true
      · rw [if_pos hc]
        constructor
        · intro h1 x hx
          rcases List.mem_cons.mp hx with hx | hx
          · rw [hx]; exact hc
          · exact (ih.mp h1) x hx
        · intro hall
          exact ih.mpr (fun x hx => hall x (List.mem_cons_of_mem c hx))
      · rw [if_neg hc]
        constructor
        · intro h1; exact absurd h1 (by simp)
        · intro hall; exact absurd (hall c (List.mem_cons_self c rest)) hc

theorem turnOnOrOff_skip (d : Bool) (env : ampEnv) (s : Bool) :
    turnOnOrOff d env s s = ⟨s, false, []⟩ := by
  unfold turnOnOrOff
  rw [if_pos rfl]

theorem turnOnOrOff_ping_fail (d : Bool) (env : ampEnv) (cur state : Bool)
    (hne : cur ≠ state) (hp : env.pingOk = false) :
    turnOnOrOff d env cur state = ⟨!state, true, []⟩ := by
  unfold turnOnOrOff
  rw [if_neg hne, hp]
  rfl

theorem turnOnOrOff_ping_ok (d : Bool) (env : ampEnv) (cur state : Bool)
    (hne : cur ≠ state) (hp : env.pingOk = true) :
    turnOnOrOff d env cur state =
      ⟨if (sendLoop d env (ampCmds state)).1 then state else !state, true,
        (sendLoop d env (ampCmds state)).2⟩ := by
  unfold turnOnOrOff
  rw [if_neg hne, hp]
  rfl

/-- Claim C6: with a healthy transport and a cached state differing from the
desired one, the first call transmits the command sequence exactly once and
records the new state; the second call with the same desired state finds the
cache equal to it, performs no connect and no send, and leaves the state
unchanged — the two calls together transmit the sequence exactly once. -/
theorem C6_idempotent (env : ampEnv) (cur state : Bool)
    (hping : env.pingOk = true) (hsend : ∀ c ∈ ampCmds state, env.sendOk c = true)
    (hne : cur ≠ state) :
    (turnOnOrOff false env cur state).state = state
    ∧ (turnOnOrOff false env cur state).sent = ampCmds state
    ∧ (turnOnOrOff false env (turnOnOrOff false env cur state).state state).state = state
    ∧ (turnOnOrOff false env (turnOnOrOff false env cur state).state state).pinged = false
    ∧ (turnOnOrOff false env (turnOnOrOff false env cur state).state state).sent = []
    ∧ (turnOnOrOff false env cur state).sent
      ++ (turnOnOrOff false env (turnOnOrOff false env cur state).state state).sent
      = ampCmds state := by
  have h1 : turnOnOrOff false env cur state = ⟨state, true, ampCmds state⟩ := by
    rw [turnOnOrOff_ping_ok false env cur state hne hping,
      sendLoop_all_ok env (ampCmds state) hsend]
    rfl
  have h2 : turnOnOrOff false env state state = ⟨state, false, []⟩ :=
    turnOnOrOff_skip false env state
  rw [h1]
  show state = state ∧ ampCmds state = ampCmds state
    ∧ (turnOnOrOff false env state state).state = state
    ∧ (turnOnOrOff false env state state).pinged = false
    ∧ (turnOnOrOff false env state state).sent = []
    ∧ ampCmds state ++ (turnOnOrOff false env state state).sent = ampCmds state
  rw [h2]
  exact ⟨rfl, rfl, rfl, rfl, rfl, by simp⟩

/-- Witness for C6: amplifier off, desired state on, healthy transport. -/
theorem C6_idempotent_witness :
    ((ampEnv.mk true (fun _ => true)).pingOk = true)
    ∧ (∀ c ∈ ampCmds true, (ampEnv.mk true (fun _ => true)).sendOk c = true)
    ∧ (false ≠ true)
    ∧ ((turnOnOrOff false (ampEnv.mk true (fun _ => true)) false true).state = true
      ∧ (turnOnOrOff false (ampEnv.mk true (fun _ => true)) false true).sent = ampCmds true
      ∧ (turnOnOrOff false (ampEnv.mk true (fun _ => true))
          (turnOnOrOff false (ampEnv.mk true (fun _ => true)) false true).state true).state = true
      ∧ (turnOnOrOff false (ampEnv.mk true (fun _ => true))
          (turnOnOrOff false (ampEnv.mk true (fun _ => true)) false true).state true).pinged = false
      ∧ (turnOnOrOff false (ampEnv.mk true (fun _ => true))
          (turnOnOrOff false (ampEnv.mk true (fun _ => true)) false true).state true).sent = []
      ∧ (turnOnOrOff false (ampEnv.mk true (fun _ => true)) false true).sent
        ++ (turnOnOrOff false (ampEnv.mk true (fun _ => true))
            (turnOnOrOff false (ampEnv.mk true (fun _ => true)) false true).state true).sent
        = ampCmds true) :=
  ⟨rfl, fun c _ => rfl, by simp,
    C6_idempotent (ampEnv.mk true (fun _ => true)) false true rfl (fun c _ => rfl) (by simp)⟩

/-- Claim C7: for an actuation attempt that actually proceeds (cached state
differs from the desired one): a ping failure reverts the cached state to the
previous value; with dry-run off, a failure of any command in the sequence
reverts it as well; the cached state ends up reporting the new state exactly
when the ping succeeded and (dry-run excepted) every command was successfully
transmitted — so a retry with a healthy transport confirms the new state. -/
theorem C7_failure_revert (dryRun : Bool) (env : ampEnv) (cur state : Bool)
    (hne : cur ≠ state) :
    (env.pingOk = false → (turnOnOrOff dryRun env cur state).state = cur)
    ∧ (dryRun = false → env.pingOk = true → (¬ ∀ c ∈ ampCmds state, env.sendOk c = true) →
        (turnOnOrOff dryRun env cur state).state = cur)
    ∧ ((turnOnOrOff dryRun env cur state).state = state →
        env.pingOk = true ∧ (dryRun = true ∨ ∀ c ∈ ampCmds state, env.sendOk c = true))
    ∧ (env.pingOk = true → (dryRun = true ∨ ∀ c ∈ ampCmds state, env.sendOk c = true) →
        (turnOnOrOff dryRun env cur state).state = state) := by
  have hcur : (!state) = cur := bool_not_of_ne hne
  have hss : (!state) ≠ state := by
    cases state <;> simp
  refine ⟨?_, ?_, ?_, ?_⟩
  · intro hping
    rw [turnOnOrOff_ping_fail dryRun env cur state hne hping]
    exact hcur
  · intro hd hping hfail
    subst hd
    rw [turnOnOrOff_ping_ok false env cur state hne hping]
    have hko : (sendLoop false env (ampCmds state)).1 = false := by
      cases hok : (sendLoop false env (ampCmds state)).1 with
      | false => rfl
      | true => exact absurd ((sendLoop_ok_iff env (ampCmds state)).mp hok) hfail
    show (if (sendLoop false env (ampCmds state)).1 then state else !state) = cur
    rw [hko]
    simp [hcur]
  · intro hdone
    cases hp : env.pingOk with
    | false =>
        rw [turnOnOrOff_ping_fail dryRun env cur state hne hp] at hdone
        exact absurd hdone hss
    | true =>
        refine ⟨rfl, ?_⟩
        rw [turnOnOrOff_ping_ok dryRun env cur state hne hp] at hdone
        have hdone2 : (if (sendLoop dryRun env (ampCmds state)).1 then state else !state)
            = state := hdone
        cases hd : dryRun with
        | true => exact Or.inl rfl
        | false =>
            right
            rw [hd] at hdone2
            cases hsl : (sendLoop false env (ampCmds state)).1 with
            | true => exact (sendLoop_ok_iff env (ampCmds state)).mp hsl
            | false =>
                rw [hsl] at hdone2
                simp only [Bool.false_eq_true, if_false] at hdone2
                exact absurd hdone2 hss
  · intro hping hok
    rw [turnOnOrOff_ping_ok dryRun env cur state hne hping]
    show (if (sendLoop dryRun env (ampCmds state)).1 then state else !state) = state
    rcases hok with hd | hall
    · rw [hd, sendLoop_dry]
      rfl
    · cases hd : dryRun with
      | true =>
          rw [sendLoop_dry]
          rfl
      | false =>
          rw [sendLoop_all_ok env (ampCmds state) hall]
          rfl

/-- Witness for C7: amplifier off, desired state on, dry run off, transport
whose ping succeeds but whose sends all fail; the first two conjuncts then
show the revert, the others the confirmation conditions. -/
theorem C7_failure_revert_witness :
    (false ≠ true)
    ∧ (((ampEnv.mk true (fun _ => false)).pingOk = false →
        (turnOnOrOff false (ampEnv.mk true (fun _ => false)) false true).state = false)
      ∧ (false = false → (ampEnv.mk true (fun _ => false)).pingOk = true →
          (¬ ∀ c ∈ ampCmds true, (ampEnv.mk true (fun _ => false)).sendOk c = true) →
          (turnOnOrOff false (ampEnv.mk true (fun _ => false)) false true).state = false)
      ∧ ((turnOnOrOff false (ampEnv.mk true (fun _ => false)) false true).state = true →
          (ampEnv.mk true (fun _ => false)).pingOk = true
          ∧ (false = true ∨ ∀ c ∈ ampCmds true, (ampEnv.mk true (fun _ => false)).sendOk c = true))
      ∧ ((ampEnv.mk true (fun _ => false)).pingOk = true →
          (false = true ∨ ∀ c ∈ ampCmds true, (ampEnv.mk true (fun _ => false)).sendOk c = true) →
          (turnOnOrOff false (ampEnv.mk true (fun _ => false)) false true).state = true)) :=
  ⟨by simp, C7_failure_revert false (ampEnv.mk true (fun _ => false)) false true (by simp)⟩

/-- Counterexample to C8: the actuator's cache starts as the boolean `false`
(off), not an Unknown marker, so from the initial state the first call with
desired state off is skipped by the idempotency check — no connect/ping is
attempted and no command is sent, although no state was ever confirmed. -/
theorem C8_counterexample :
    (turnOnOrOff false ⟨true, fun _ => true⟩ initAmpState false).pinged = false
    ∧ (turnOnOrOff false ⟨true, fun _ => true⟩ initAmpState false).sent = []
    ∧ (turnOnOrOff false ⟨true, fun _ => true⟩ initAmpState false).state = initAmpState := by
  decide

/-- Claim C8 (amended): there is no Unknown state — the per-process cache is
the boolean `currentAmpState`, zero-initialized to `false` (off).  From the
initial state, a first call with desired state on proceeds to a connect
attempt, but a first call with desired state off is skipped by the idempotency
check with no connect and no command.  A cached state equal to the desired one
is stable (no ping, no send, state unchanged), and after any failure — a
connect/ping failure, or a send failure of any command in the sequence — the
cache reverts to the previous boolean value rather than entering an Unknown
state. -/
theorem C8_state_machine (d : Bool) (env env2 env3 : ampEnv) (cur s : Bool)
    (hne : cur ≠ s) (hping : env2.pingOk = false)
    (hping3 : env3.pingOk = true) (hfail3 : ¬ ∀ c ∈ ampCmds s, env3.sendOk c = true) :
    initAmpState = false
    ∧ turnOnOrOff d env initAmpState false = ⟨false, false, []⟩
    ∧ (turnOnOrOff d env initAmpState true).pinged = true
    ∧ turnOnOrOff d env s s = ⟨s, false, []⟩
    ∧ (turnOnOrOff d env2 cur s).state = cur
    ∧ (turnOnOrOff false env3 cur s).state = cur := by
  refine ⟨rfl, turnOnOrOff_skip d env false, ?_, turnOnOrOff_skip d env s, ?_, ?_⟩
  · cases hp : env.pingOk with
    | false => rw [turnOnOrOff_ping_fail d env initAmpState true (by decide) hp]
    | true => rw [turnOnOrOff_ping_ok d env initAmpState true (by decide) hp]
  · rw [turnOnOrOff_ping_fail d env2 cur s hne hping]
    exact bool_not_of_ne hne
  · rw [turnOnOrOff_ping_ok false env3 cur s hne hping3]
    have hko : (sendLoop false env3 (ampCmds s)).1 = false := by
      cases hok : (sendLoop false env3 (ampCmds s)).1 with
      | false => rfl
      | true => exact absurd ((sendLoop_ok_iff env3 (ampCmds s)).mp hok) hfail3
    show (if (sendLoop false env3 (ampCmds s)).1 then s else !s) = cur
    rw [hko]
    simp [bool_not_of_ne hne]

/-- Witness for C8 with a healthy transport, a ping-failing transport and a
transport whose ping succeeds but whose command sends all fail. -/
theorem C8_state_machine_witness :
    (false ≠ true) ∧ ((ampEnv.mk false (fun _ => true)).pingOk = false)
    ∧ ((ampEnv.mk true (fun _ => false)).pingOk = true)
    ∧ (¬ ∀ c ∈ ampCmds true, (ampEnv.mk true (fun _ => false)).sendOk c = true)
    ∧ (initAmpState = false
      ∧ turnOnOrOff false (ampEnv.mk true (fun _ => true)) initAmpState false = ⟨false, false, []⟩
      ∧ (turnOnOrOff false (ampEnv.mk true (fun _ => true)) initAmpState true).pinged = true
      ∧ turnOnOrOff false (ampEnv.mk true (fun _ => true)) true true = ⟨true, false, []⟩
      ∧ (turnOnOrOff false (ampEnv.mk false (fun _ => true)) false true).state = false
      ∧ (turnOnOrOff false (ampEnv.mk true (fun _ => false)) false true).state = false) :=
  ⟨by simp, rfl, rfl, by decide,
    C8_state_machine false (ampEnv.mk true (fun _ => true)) (ampEnv.mk false (fun _ => true))
      (ampEnv.mk true (fun _ => false)) false true (by simp) rfl rfl (by decide)⟩

theorem feed_quiet (threshold : ℚ) (vs : List ℚ) :
    ∀ vw : varianceWindow, (∀ v ∈ vs, ¬ threshold < v) →
    0 ≤ vw.totalNotPlaying → vw.totalNotPlaying ≤ vw.size →
    (feed threshold vw vs).totalNotPlaying = min vw.size (vw.totalNotPlaying + vs.length)
    ∧ (feed threshold vw vs).size = vw.size
    ∧ (vs ≠ [] → (feed threshold vw vs).lastConseqPlaying = 0) := by
  induction vs with
  | nil =>
      intro vw _ h0 hle
      refine ⟨?_, rfl, ?_⟩
      · show vw.totalNotPlaying = _
        simp only [List.length_nil, Nat.cast_zero, add_zero]
        omega
      · intro hcon
        exact absurd rfl hcon
  | cons v vs ih =>
      intro vw hq h0 hle
      have hv : ¬ threshold < v := hq v (List.mem_cons_self v vs)
      have hstep := Add_quiet threshold vw v hv
      have hsize0 : 0 ≤ vw.size := le_trans h0 hle
      have ihres := ih (vw.Add threshold v)
        (fun w hw => hq w (List.mem_cons_of_mem v hw))
        (by rw [hstep.2.1]; omega) (by rw [hstep.2.1, hstep.2.2]; omega)
      have hfeed : feed threshold vw (v :: vs) = feed threshold (vw.Add threshold v) vs := rfl
      refine ⟨?_, ?_, ?_⟩
      · rw [hfeed, ihres.1, hstep.2.1, hstep.2.2]
        simp only [List.length_cons, Nat.cast_add, Nat.cast_one]
        omega
      · rw [hfeed, ihres.2.1, hstep.2.2]
      · intro _
        rw [hfeed]
        cases vs with
        | nil => exact hstep.1
        | cons w ws => exact ihres.2.2 (by simp)

theorem feed_loud_totalNot (threshold : ℚ) (vs : List ℚ) :
    ∀ vw : varianceWindow, (∀ v ∈ vs, threshold < v) →
    0 ≤ vw.totalNotPlaying →
    (feed threshold vw vs).totalNotPlaying = max 0 (vw.totalNotPlaying - vs.length) := by
  induction vs with
  | nil =>
      intro vw _ h0
      show vw.totalNotPlaying = _
      simp only [List.length_nil, Nat.cast_zero, sub_zero]
      omega
  | cons v vs ih =>
      intro vw hl h0
      have hv := hl v (List.mem_cons_self v vs)
      have hstep := Add_loud threshold vw v hv
      have ihres := ih (vw.Add threshold v) (fun w hw => hl w (List.mem_cons_of_mem v hw))
        (by rw [hstep.2.1]; omega)
      have hfeed : feed threshold vw (v :: vs) = feed threshold (vw.Add threshold v) vs := rfl
      rw [hfeed, ihres, hstep.2.1]
      simp only [List.length_cons, Nat.cast_add, Nat.cast_one]
      omega

/-- The actuation decisions at one tick of `main`'s loop, after `vw.Add`:
call `turnOnOrOff(true)` if `GoodToTurnOn()`, then `turnOnOrOff(false)` if
`GoodToTurnOff()`.  Returns the final `currentAmpState` together with the
desired states passed to `turnOnOrOff`, in order. -/
def decisionStep (dryRun : Bool) (env : ampEnv) (playingSec idleSec : ℤ)
    (vw : varianceWindow) (cur : Bool) : Bool × List Bool :=
  let s1 := if vw.GoodToTurnOn playingSec then (turnOnOrOff dryRun env cur true).state else cur
  let calls1 : List Bool := if vw.GoodToTurnOn playingSec then [true] else []
  let s2 := if vw.GoodToTurnOff idleSec then (turnOnOrOff dryRun env s1 false).state else s1
  let calls2 : List Bool := if vw.GoodToTurnOff idleSec then [false] else []
  (s2, calls1 ++ calls2)

/-- The classifier state reached from the initial state by `H = 307`
consecutive quiet variance samples followed by exactly `playing = 7`
consecutive loud ones, under the source's default configuration
(idle 300 s, playing 7 s, threshold 1000). -/
def c10vw : varianceWindow :=
  feed 1000 (initVW (300 + 7)) (List.replicate 307 (0 : ℚ) ++ List.replicate 7 5000)

/-- Claim C10: after `H` quiet then exactly `playingThresholdSeconds` loud
verdicts from the initial state, `GoodToTurnOn()` and `GoodToTurnOff()` are
both true on the same tick, and the decision loop then invokes the actuator
with on followed immediately by off, leaving the amplifier off (from either
prior amplifier state) despite the sustained run of loud verdicts. -/
theorem C10_on_then_off :
    c10vw.GoodToTurnOn 7 = true
    ∧ c10vw.GoodToTurnOff 300 = true
    ∧ decisionStep false ⟨true, fun _ => true⟩ 7 300 c10vw false = (false, [true, false])
    ∧ decisionStep false ⟨true, fun _ => true⟩ 7 300 c10vw true = (false, [true, false]) := by
  have hquiet : ∀ v ∈ List.replicate 307 (0 : ℚ), ¬ (1000 : ℚ) < v := by
    intro v hv
    rw [List.eq_of_mem_replicate hv]
    norm_num
  have hloudl : ∀ v ∈ List.replicate 7 (5000 : ℚ), (1000 : ℚ) < v := by
    intro v hv
    rw [List.eq_of_mem_replicate hv]
    norm_num
  have hsplit : c10vw =
      feed 1000 (feed 1000 (initVW (300 + 7)) (List.replicate 307 (0 : ℚ)))
        (List.replicate 7 (5000 : ℚ)) := by
    unfold c10vw feed
    rw [List.foldl_append]
  have hq := feed_quiet 1000 (List.replicate 307 (0 : ℚ)) (initVW (300 + 7)) hquiet
    (le_refl 0) (by show (0 : ℤ) ≤ 300 + 7; norm_num)
  have tA : (feed 1000 (initVW (300 + 7)) (List.replicate 307 (0 : ℚ))).totalNotPlaying = 307 := by
    rw [hq.1]
    simp only [List.length_replicate]
    decide
  have sA : (feed 1000 (initVW (300 + 7)) (List.replicate 307 (0 : ℚ))).size = 300 + 7 := hq.2.1
  have hrep : List.replicate 307 (0 : ℚ) ≠ [] := by
    intro hcon
    have hlen := congrArg List.length hcon
    rw [List.length_replicate, List.length_nil] at hlen
    omega
  have cA : (feed 1000 (initVW (300 + 7)) (List.replicate 307 (0 : ℚ))).lastConseqPlaying = 0 :=
    hq.2.2 hrep
  have hc := feed_loud_lastConseq 1000 (List.replicate 7 (5000 : ℚ))
    (feed 1000 (initVW (300 + 7)) (List.replicate 307 (0 : ℚ))) hloudl
    (by omega) (by omega)
  have ht := feed_loud_totalNot 1000 (List.replicate 7 (5000 : ℚ))
    (feed 1000 (initVW (300 + 7)) (List.replicate 307 (0 : ℚ))) hloudl (by omega)
  have cB : c10vw.lastConseqPlaying = 7 := by
    rw [hsplit, hc.1, sA, cA]
    simp only [List.length_replicate]
    decide
  have tB : c10vw.totalNotPlaying = 300 := by
    rw [hsplit, ht, tA]
    simp only [List.length_replicate]
    decide
  have hGoodOn : c10vw.GoodToTurnOn 7 = true := by
    unfold varianceWindow.GoodToTurnOn
    rw [cB]
    decide
  have hGoodOff : c10vw.GoodToTurnOff 300 = true := by
    unfold varianceWindow.GoodToTurnOff
    rw [tB]
    decide
  have hOn : ∀ cur : Bool, (turnOnOrOff false ⟨true, fun _ => true⟩ cur true).state = true := by
    intro cur
    cases cur <;> decide
  have hOff : (turnOnOrOff false ⟨true, fun _ => true⟩ true false).state = false := by
    decide
  refine ⟨hGoodOn, hGoodOff, ?_, ?_⟩
  · unfold decisionStep
    rw [hGoodOn, hGoodOff]
    simp only [if_true]
    rw [hOn false, hOff]
    rfl
  · unfold decisionStep
    rw [hGoodOn, hGoodOff]
    simp only [if_true]
    rw [hOn true, hOff]
    rfl

end Sonden
